import Mathlib

/-!
A shallow embedding of `src/diffusion.py`: a two-species diffusion
simulation in a bounded 2D chamber.  Particles carry rational positions
(Python floats are idealised as exact rationals), a two-valued species
colour, and move by per-axis steps drawn from {-1, 0, 1} scaled by a
velocity.  Randomness is modelled by explicit streams of draws; the
unbounded rejection-sampling loop in `Chamber.init_particles` is modelled
with explicit fuel, returning an error value when the fuel runs out
(the Python code would still be looping) or when `random.randint` would
raise `ValueError` on an empty range.  Real-valued entropy is modelled
over `ℝ` with `Real.logb 2`.
-/

namespace Diffusion

/-- The two particle species of the program: `'orange'` and `'blue'`. -/
inductive Color where
  | orange
  | blue
deriving DecidableEq

/-- State of `Particle`: position plus colour.  Positions start as
integers but become fractional after `move`, hence `ℚ`. -/
structure Particle where
  x : ℚ
  y : ℚ
  color : Color
deriving DecidableEq

/-- Python `int()` applied to a rational: truncation toward zero. -/
def pyInt (q : ℚ) : ℤ :=
  if 0 ≤ q then ⌊q⌋ else -⌊-q⌋

/-- Model of `Particle.move(max_x, max_y, velocity)` with the two
`random.choice` draws `dx, dy` made explicit: each axis proposes
`coord + d * velocity` and accepts the proposal only when it lies in
`[0, max)` on that axis. -/
def Particle.move (max_x max_y : ℕ) (velocity : ℚ) (dx dy : ℤ) (p : Particle) : Particle :=
  let new_x := p.x + dx * velocity
  let new_y := p.y + dy * velocity
  { x := if 0 ≤ new_x ∧ new_x < max_x then new_x else p.x
    y := if 0 ≤ new_y ∧ new_y < max_y then new_y else p.y
    color := p.color }

/-- Model of `random.choice([-1, 0, 1])`, with the random index explicit. -/
def choiceOf (n : ℕ) : ℤ :=
  [(-1 : ℤ), 0, 1].getD (n % 3) 0

/-- Ways `Chamber.init_particles` can fail in the model: `valueError` when
`random.randint(0, n)` is called with `n < 0` (non-positive chamber size),
`fuelExhausted` when the rejection-sampling `while` loop is still running
after the given fuel bound (the Python code has no bound at all). -/
inductive SeedError where
  | valueError
  | fuelExhausted
deriving DecidableEq

/-- Model of `Chamber.is_position_occupied(x, y)`: linear scan over the
particle list for an exact coordinate match. -/
def is_position_occupied : List Particle → ℚ → ℚ → Bool
  | [], _, _ => false
  | p :: ps, x, y => if p.x = x ∧ p.y = y then true else is_position_occupied ps x y

/-- Rejection-sampling `while` loop drawing `random.randint` cells until
an unoccupied one turns up, with the random draws supplied by the stream
`s` (read at counter `k`, reduced into range by `%`) and the loop bounded
by `fuel`.  Returns the accepted cell and the next counter. -/
def placeAux (w h : ℕ) (s : ℕ → ℕ × ℕ) (ps : List Particle) :
    ℕ → ℕ → Except SeedError (ℕ × ℕ × ℕ)
  | 0, _ => .error .fuelExhausted
  | fuel + 1, k =>
    let x := (s k).1 % w
    let y := (s k).2 % h
    if is_position_occupied ps (x : ℚ) (y : ℚ) then placeAux w h s ps fuel (k + 1)
    else .ok (x, y, k + 1)

/-- One particle placement: `random.randint(0, width - 1)` raises
`ValueError` when the range is empty, otherwise the rejection loop runs. -/
def place (w h : ℕ) (s : ℕ → ℕ × ℕ) (ps : List Particle) (fuel k : ℕ) :
    Except SeedError (ℕ × ℕ × ℕ) :=
  if w = 0 ∨ h = 0 then .error .valueError else placeAux w h s ps fuel k

/-- Particle appended for an accepted cell `(x, y)`: the midline rule
`'orange' if x < mid_x else 'blue'` where `mid_x = width // 2`. -/
def newParticle (w x y : ℕ) : Particle :=
  { x := (x : ℚ), y := (y : ℚ),
    color := if x < w / 2 then Color.orange else Color.blue }

/-- Model of `Chamber.init_particles(num_particles)`: place `n` particles
one after the other, appending each accepted cell coloured by the midline
rule. -/
def init_particles (w h : ℕ) (s : ℕ → ℕ × ℕ) (fuel : ℕ) :
    ℕ → ℕ → List Particle → Except SeedError (List Particle × ℕ)
  | 0, k, ps => .ok (ps, k)
  | n + 1, k, ps =>
    match place w h s ps fuel k with
    | .error e => .error e
    | .ok (x, y, k') => init_particles w h s fuel n k' (ps ++ [newParticle w x y])

/-- State of `Chamber`: square chamber of side `size`, a temperature, the
particle list and the registered probe hooks (opaque identifiers). -/
structure Chamber where
  width : ℕ
  height : ℕ
  temperature : ℚ
  particles : List Particle
  hooks : List ℕ
deriving DecidableEq

/-- Model of `Chamber.__init__(size, temperature, num_particles)`: set
`width = height = size`, store the temperature, start from an empty
particle list and no hooks, and run `init_particles`. -/
def Chamber.new (size : ℕ) (temperature : ℚ) (num_particles : ℕ)
    (s : ℕ → ℕ × ℕ) (fuel : ℕ) : Except SeedError Chamber :=
  (init_particles size size s fuel num_particles 0 []).map fun r =>
    { width := size, height := size, temperature := temperature,
      particles := r.1, hooks := [] }

/-- Model of `Diffusion.__init__(size, temperature)`, which builds
`Chamber(size, temperature, int(0.8 * size * size))`; the float product
`0.8 * size * size` is idealised as the exact rational `8·size²/10`, so
`int` of it is the floor `8 * size * size / 10` in `ℕ`. -/
def diffusion_new (size : ℕ) (temperature : ℚ) (s : ℕ → ℕ × ℕ) (fuel : ℕ) :
    Except SeedError Chamber :=
  Chamber.new size temperature (8 * size * size / 10) s fuel

/-- Predicate: the particle sits on an integer cell of the `w × h` grid. -/
def InCell (w h : ℕ) (p : Particle) : Prop :=
  ∃ a b : ℕ, a < w ∧ b < h ∧ p.x = (a : ℚ) ∧ p.y = (b : ℚ)

/-- Predicate: no two particles of the list occupy the same cell. -/
def NoOverlap (ps : List Particle) : Prop :=
  ps.Pairwise fun p q => ¬(p.x = q.x ∧ p.y = q.y)

/-- Observable events of one `Chamber.update(cycle)` call: the `i`-th
particle's `move` returning, and a hook's `updated(cycle)` call. -/
inductive Event where
  | moved (i : ℕ)
  | notified (hook : ℕ)
deriving DecidableEq

/-- First loop of `Chamber.update`: every particle moves once with
`velocity = temperature / 100`; the draw stream `d` supplies the two
`random.choice` indices for the particle at position `i`. -/
def moveLoop (w h : ℕ) (v : ℚ) (d : ℕ → ℕ × ℕ) :
    List Particle → ℕ → List Particle × List Event
  | [], _ => ([], [])
  | p :: ps, i =>
    let moved := p.move w h v (choiceOf (d i).1) (choiceOf (d i).2)
    let rest := moveLoop w h v d ps (i + 1)
    (moved :: rest.1, Event.moved i :: rest.2)

/-- Second loop of `Chamber.update`: `hook.updated(cycle)` for every
registered hook, in list order. -/
def notifyLoop : List ℕ → List Event
  | [] => []
  | hk :: hks => Event.notified hk :: notifyLoop hks

/-- Model of `Chamber.update(cycle)`: move every particle, then notify
every hook; returns the updated chamber and the emitted event trace. -/
def Chamber.update (c : Chamber) (d : ℕ → ℕ × ℕ) (cycle : ℤ) : Chamber × List Event :=
  let r := moveLoop c.width c.height (c.temperature / 100) d c.particles 0
  ({ c with particles := r.1 }, r.2 ++ notifyLoop c.hooks)

/-- Model of `Chamber.add_hook(hook)`: append to the hook list. -/
def Chamber.add_hook (c : Chamber) (hk : ℕ) : Chamber :=
  { c with hooks := c.hooks ++ [hk] }

/-- Grid increment `density[a, b] += 1`, the grid as a function. -/
def bump (g : ℤ → ℤ → ℕ) (a b : ℤ) : ℤ → ℤ → ℕ :=
  fun i j => if i = a ∧ j = b then g i j + 1 else g i j

/-- Model of `np.zeros((width, height))`. -/
def zeroGrid : ℤ → ℤ → ℕ := fun _ _ => 0

/-- Per-species occupancy loop shared verbatim by
`ConcentrationDensity.updated` and `SystemEntropy.updated`: for every
particle of colour `c`, `density[int(x), int(y)] += 1`. -/
def densityFold (c : Color) : List Particle → (ℤ → ℤ → ℕ) → ℤ → ℤ → ℕ
  | [], g => g
  | p :: ps, g =>
    densityFold c ps (if p.color = c then bump g (pyInt p.x) (pyInt p.y) else g)

/-- Finished occupancy grid for species `c`, starting from zeros. -/
def densityGrid (c : Color) (ps : List Particle) : ℤ → ℤ → ℕ :=
  densityFold c ps zeroGrid

/-- Column sum `np.sum(density, axis=1)` at column `x`: the per-column
concentration series plotted by `ConcentrationDensity.updated`. -/
def concentrationSeries (c : Color) (ps : List Particle) (hgt : ℕ) (x : ℕ) : ℕ :=
  ∑ y in Finset.range hgt, densityGrid c ps (x : ℤ) (y : ℤ)

/-- Sum of a grid over the `w × h` index rectangle. -/
def totalMass (g : ℤ → ℤ → ℕ) (w h : ℕ) : ℕ :=
  ∑ x in Finset.range w, ∑ y in Finset.range h, g (x : ℤ) (y : ℤ)

/-- Cell value of `total_particles = orange_density + blue_density`. -/
def cellTotal (ps : List Particle) (i j : ℤ) : ℕ :=
  densityGrid Color.orange ps i j + densityGrid Color.blue ps i j

/-- Guard `total_particles[total_particles == 0] = 1` of
`SystemEntropy.updated`, applied at one cell. -/
def cellTotalAdj (ps : List Particle) (i j : ℤ) : ℕ :=
  if cellTotal ps i j = 0 then 1 else cellTotal ps i j

/-- Cell value of `orange_prob` / `blue_prob`: count over adjusted total. -/
noncomputable def probOf (c : Color) (ps : List Particle) (i j : ℤ) : ℝ :=
  (densityGrid c ps i j : ℝ) / (cellTotalAdj ps i j : ℝ)

/-- Additive epsilon `1e-9` placed inside the logarithm. -/
noncomputable def entropyEps : ℝ := 1 / 1000000000

/-- One cell's Shannon entropy
`-(p_o·log2(p_o + 1e-9) + p_b·log2(p_b + 1e-9))`. -/
noncomputable def cellEntropy (ps : List Particle) (i j : ℤ) : ℝ :=
  -(probOf Color.orange ps i j * Real.logb 2 (probOf Color.orange ps i j + entropyEps)
    + probOf Color.blue ps i j * Real.logb 2 (probOf Color.blue ps i j + entropyEps))

/-- Total `total_entropy = np.sum(entropy)` over the grid. -/
noncomputable def totalEntropy (ps : List Particle) (w h : ℕ) : ℝ :=
  ∑ i in Finset.range w, ∑ j in Finset.range h, cellEntropy ps (i : ℤ) (j : ℤ)

/-- State carried by `SystemEntropy` across cycles. -/
structure SystemEntropyState where
  max_entropy : ℝ
  max_entropy_cycle : ℤ

/-- Model of `SystemEntropy.__init__`: both running fields start at 0. -/
def systemEntropyInit : SystemEntropyState :=
  { max_entropy := 0, max_entropy_cycle := 0 }

open Classical in
/-- State transition of `SystemEntropy.updated(cycle)`: compute the
cycle's total entropy and take over both fields when it strictly exceeds
the stored maximum (`if total_entropy > self.max_entropy`). -/
noncomputable def systemEntropyUpdated (st : SystemEntropyState) (ps : List Particle)
    (w h : ℕ) (cycle : ℤ) : SystemEntropyState :=
  if st.max_entropy < totalEntropy ps w h then
    { max_entropy := totalEntropy ps w h, max_entropy_cycle := cycle }
  else st

/-- Deterministic draw stream for concrete runs: the `k`-th draw is the
cell `(k % 2, k / 2)`, enumerating the `2 × 2` grid column-first. -/
def seedStream : ℕ → ℕ × ℕ := fun k => (k % 2, k / 2)

/-- Chamber produced by `Diffusion(2, 50)` under `seedStream`. -/
def sampleChamber : Chamber :=
  { width := 2, height := 2, temperature := 50,
    particles := [{ x := 0, y := 0, color := Color.orange },
                  { x := 1, y := 0, color := Color.blue },
                  { x := 0, y := 1, color := Color.orange }],
    hooks := [] }

/-- Concrete particle list for witnesses: one orange particle at a
fractional position, one blue particle on an integer cell. -/
def sampleParticles : List Particle :=
  [{ x := mkRat 1 2, y := 0, color := Color.orange },
   { x := 1, y := 1, color := Color.blue }]

/-- Binning rule the specification claims: each coordinate rounded to the
nearest integer (`round q = ⌊q + 1/2⌋`). -/
def roundNearest (q : ℚ) : ℤ := round q

theorem choiceOf_mem (n : ℕ) : choiceOf n = -1 ∨ choiceOf n = 0 ∨ choiceOf n = 1 := by
  have h : n % 3 < 3 := Nat.mod_lt _ (by decide)
  unfold choiceOf
  interval_cases h' : n % 3 <;> simp [List.getD]

theorem Particle.move_x (max_x max_y : ℕ) (v : ℚ) (dx dy : ℤ) (p : Particle) :
    (p.move max_x max_y v dx dy).x =
      if 0 ≤ p.x + dx * v ∧ p.x + dx * v < max_x then p.x + dx * v else p.x := rfl

theorem Particle.move_y (max_x max_y : ℕ) (v : ℚ) (dx dy : ℤ) (p : Particle) :
    (p.move max_x max_y v dx dy).y =
      if 0 ≤ p.y + dy * v ∧ p.y + dy * v < max_y then p.y + dy * v else p.y := rfl

theorem Particle.move_color (max_x max_y : ℕ) (v : ℚ) (dx dy : ℤ) (p : Particle) :
    (p.move max_x max_y v dx dy).color = p.color := rfl

theorem is_position_occupied_eq_false {ps : List Particle} {x y : ℚ}
    (h : is_position_occupied ps x y = false) :
    ∀ p ∈ ps, ¬(p.x = x ∧ p.y = y) := by
  induction ps with
  | nil => intro p hp; cases hp
  | cons q qs ih =>
    rw [is_position_occupied] at h
    split_ifs at h with hq
    intro p hp
    rcases List.mem_cons.mp hp with rfl | hp'
    · exact hq
    · exact ih h p hp'

theorem placeAux_ok {w h : ℕ} {s : ℕ → ℕ × ℕ} {ps : List Particle}
    {fuel k : ℕ} {x y k' : ℕ} (hw : 0 < w) (hh : 0 < h)
    (hok : placeAux w h s ps fuel k = .ok (x, y, k')) :
    x < w ∧ y < h ∧ is_position_occupied ps (x : ℚ) (y : ℚ) = false := by
  induction fuel generalizing k with
  | zero => exact absurd hok (by simp [placeAux])
  | succ fuel ih =>
    rw [placeAux] at hok
    by_cases hocc : is_position_occupied ps (((s k).1 % w : ℕ) : ℚ) (((s k).2 % h : ℕ) : ℚ)
    · rw [if_pos hocc] at hok
      exact ih hok
    · rw [if_neg hocc] at hok
      cases hok
      exact ⟨Nat.mod_lt _ hw, Nat.mod_lt _ hh, by simpa using hocc⟩

theorem place_ok {w h : ℕ} {s : ℕ → ℕ × ℕ} {ps : List Particle}
    {fuel k : ℕ} {x y k' : ℕ}
    (hok : place w h s ps fuel k = .ok (x, y, k')) :
    x < w ∧ y < h ∧ is_position_occupied ps (x : ℚ) (y : ℚ) = false := by
  rw [place] at hok
  split_ifs at hok with hz
  have hw : 0 < w := Nat.pos_of_ne_zero fun hc => hz (Or.inl hc)
  have hh : 0 < h := Nat.pos_of_ne_zero fun hc => hz (Or.inr hc)
  exact placeAux_ok hw hh hok

theorem init_particles_ok {w h : ℕ} {s : ℕ → ℕ × ℕ} {fuel : ℕ} :
    ∀ {n k : ℕ} {ps qs : List Particle} {k' : ℕ},
      init_particles w h s fuel n k ps = .ok (qs, k') →
      qs.length = ps.length + n ∧
      (∀ p ∈ qs, p ∈ ps ∨
        (InCell w h p ∧ (p.color = Color.orange ↔ p.x < ((w / 2 : ℕ) : ℚ)))) ∧
      (NoOverlap ps → NoOverlap qs) := by
  intro n
  induction n with
  | zero =>
    intro k ps qs k' hok
    rw [init_particles] at hok
    injection hok with hok
    injection hok with h1 h2
    subst h1
    exact ⟨by simp, fun p hp => Or.inl hp, fun hno => hno⟩
  | succ n ih =>
    intro k ps qs k' hok
    rw [init_particles] at hok
    cases hplace : place w h s ps fuel k with
    | error e => rw [hplace] at hok; cases hok
    | ok v =>
      obtain ⟨x, y, k1⟩ := v
      rw [hplace] at hok
      obtain ⟨hx, hy, hocc⟩ := place_ok hplace
      obtain ⟨hlen, hmem, hno⟩ := ih hok
      refine ⟨by simp at hlen; omega, ?_, ?_⟩
      · intro p hp
        rcases hmem p hp with hmem' | hgood
        · rcases List.mem_append.mp hmem' with h1 | h2
          · exact Or.inl h1
          · have hpeq : p = newParticle w x y := by simpa using h2
            subst hpeq
            refine Or.inr ⟨⟨x, y, hx, hy, rfl, rfl⟩, ?_⟩
            by_cases hlt : x < w / 2
            · have hcast : (x : ℚ) < ((w / 2 : ℕ) : ℚ) := by exact_mod_cast hlt
              simp [newParticle, if_pos hlt, hcast]
            · have hcast : ¬((x : ℚ) < ((w / 2 : ℕ) : ℚ)) := by exact_mod_cast hlt
              simp [newParticle, if_neg hlt, hcast]
        · exact Or.inr hgood
      · intro hnops
        apply hno
        rw [NoOverlap, List.pairwise_append]
        refine ⟨hnops, List.pairwise_singleton _ _, ?_⟩
        intro a ha b hb
        have hbeq : b = newParticle w x y := by simpa using hb
        subst hbeq
        exact is_position_occupied_eq_false hocc a ha

/-- Distinct occupied cells of a `w × h` grid number at most `w * h`. -/
theorem NoOverlap.length_le {w h : ℕ} {ps : List Particle}
    (hin : ∀ p ∈ ps, InCell w h p) (hno : NoOverlap ps) :
    ps.length ≤ w * h := by
  classical
  have hnd : (ps.map fun p => (p.x, p.y)).Nodup := by
    rw [List.Nodup, List.pairwise_map]
    refine hno.imp ?_
    intro p q hpq hc
    exact hpq ⟨congrArg Prod.fst hc, congrArg Prod.snd hc⟩
  have hsub : (ps.map fun p => (p.x, p.y)).toFinset ⊆
      (Finset.range w ×ˢ Finset.range h).image
        fun ab : ℕ × ℕ => ((ab.1 : ℚ), (ab.2 : ℚ)) := by
    intro z hz
    rw [List.mem_toFinset] at hz
    obtain ⟨p, hp, rfl⟩ := List.mem_map.mp hz
    obtain ⟨a, b, ha, hb, hxa, hyb⟩ := hin p hp
    refine Finset.mem_image.mpr ⟨(a, b), ?_, ?_⟩
    · exact Finset.mem_product.mpr ⟨Finset.mem_range.mpr ha, Finset.mem_range.mpr hb⟩
    · rw [hxa, hyb]
  calc ps.length = (ps.map fun p => (p.x, p.y)).length := (List.length_map _ _).symm
    _ = (ps.map fun p => (p.x, p.y)).toFinset.card :=
        (List.toFinset_card_of_nodup hnd).symm
    _ ≤ _ := Finset.card_le_card hsub
    _ ≤ (Finset.range w ×ˢ Finset.range h).card := Finset.card_image_le
    _ = w * h := by rw [Finset.card_product, Finset.card_range, Finset.card_range]

theorem init_particles_not_ok_of_overfull {w h n : ℕ} (hover : w * h < n)
    {s : ℕ → ℕ × ℕ} {fuel k : ℕ} (qs : List Particle) (k' : ℕ) :
    init_particles w h s fuel n k [] ≠ .ok (qs, k') := by
  intro hok
  obtain ⟨hlen, hmem, hno⟩ := init_particles_ok hok
  have hin : ∀ p ∈ qs, InCell w h p := by
    intro p hp
    rcases hmem p hp with h0 | hg
    · cases h0
    · exact hg.1
  have hle := NoOverlap.length_le hin (hno List.Pairwise.nil)
  simp at hlen
  omega

theorem placeAux_cases {w h : ℕ} (s : ℕ → ℕ × ℕ) (ps : List Particle) :
    ∀ fuel k, (∃ v, placeAux w h s ps fuel k = .ok v) ∨
      placeAux w h s ps fuel k = .error .fuelExhausted := by
  intro fuel
  induction fuel with
  | zero => exact fun k => Or.inr rfl
  | succ fuel ih =>
    intro k
    rw [placeAux]
    split_ifs with hocc
    · exact ih (k + 1)
    · exact Or.inl ⟨_, rfl⟩

theorem init_particles_cases {w h : ℕ} (hw : 0 < w) (hh : 0 < h)
    (s : ℕ → ℕ × ℕ) (fuel : ℕ) :
    ∀ (n k : ℕ) (ps : List Particle),
      (∃ v, init_particles w h s fuel n k ps = .ok v) ∨
      init_particles w h s fuel n k ps = .error .fuelExhausted := by
  intro n
  induction n with
  | zero => exact fun k ps => Or.inl ⟨_, rfl⟩
  | succ n ih =>
    intro k ps
    rw [init_particles]
    have hplace : place w h s ps fuel k = placeAux w h s ps fuel k := by
      rw [place, if_neg]
      rintro (hc | hc)
      · exact absurd hc (Nat.pos_iff_ne_zero.mp hw)
      · exact absurd hc (Nat.pos_iff_ne_zero.mp hh)
    rcases placeAux_cases s ps fuel k with ⟨⟨x, y, k1⟩, hok⟩ | herr
    · rw [hplace, hok]
      exact ih k1 _
    · rw [hplace, herr]
      exact Or.inr rfl

theorem moveLoop_trace (w h : ℕ) (v : ℚ) (d : ℕ → ℕ × ℕ) :
    ∀ (ps : List Particle) (i : ℕ),
      (moveLoop w h v d ps i).2 =
        (List.range ps.length).map fun j => Event.moved (i + j) := by
  intro ps
  induction ps with
  | nil => intro i; simp [moveLoop]
  | cons p ps ih =>
    intro i
    rw [moveLoop]
    simp only [List.length_cons, List.range_succ_eq_map, List.map_cons, List.map_map]
    refine congrArg₂ _ (by rw [Nat.add_zero]) ?_
    rw [ih (i + 1)]
    refine List.map_congr_left ?_
    intro j hj
    simp [Function.comp]
    omega

theorem notifyLoop_trace : ∀ hks : List ℕ, notifyLoop hks = hks.map Event.notified := by
  intro hks
  induction hks with
  | nil => rfl
  | cons hk hks ih => rw [notifyLoop, ih, List.map_cons]

theorem moveLoop_particles (w h : ℕ) (v : ℚ) (d : ℕ → ℕ × ℕ) :
    ∀ (ps : List Particle) (i : ℕ),
      (moveLoop w h v d ps i).1.length = ps.length ∧
      (moveLoop w h v d ps i).1.map Particle.color = ps.map Particle.color := by
  intro ps
  induction ps with
  | nil => intro i; exact ⟨rfl, rfl⟩
  | cons p ps ih =>
    intro i
    rw [moveLoop]
    obtain ⟨h1, h2⟩ := ih (i + 1)
    exact ⟨by simpa using h1, by simpa [Particle.move_color] using h2⟩

theorem pyInt_nonneg_lt {q : ℚ} {n : ℕ} (h0 : 0 ≤ q) (h1 : q < n) :
    0 ≤ pyInt q ∧ pyInt q < n := by
  rw [pyInt, if_pos h0]
  refine ⟨Int.floor_nonneg.mpr h0, Int.floor_lt.mpr ?_⟩
  exact_mod_cast h1

theorem totalMass_bump {g : ℤ → ℤ → ℕ} {w h : ℕ} {a b : ℤ}
    (ha0 : 0 ≤ a) (haw : a < w) (hb0 : 0 ≤ b) (hbh : b < h) :
    totalMass (bump g a b) w h = totalMass g w h + 1 := by
  have hsplit : ∀ x y : ℕ, bump g a b (x : ℤ) (y : ℤ) =
      g (x : ℤ) (y : ℤ) + if x = a.toNat ∧ y = b.toNat then 1 else 0 := by
    intro x y
    rw [bump]
    by_cases hc : (x : ℤ) = a ∧ (y : ℤ) = b
    · rw [if_pos hc, if_pos (by omega)]
    · rw [if_neg hc, if_neg (by omega), Nat.add_zero]
  have hcol : ∀ x : ℕ,
      (∑ y in Finset.range h, if x = a.toNat ∧ y = b.toNat then 1 else 0) =
        if x = a.toNat then 1 else 0 := by
    intro x
    by_cases hx : x = a.toNat
    · subst hx
      simp only [true_and]
      rw [Finset.sum_ite_eq' (Finset.range h) b.toNat fun _ => 1,
        if_pos (Finset.mem_range.mpr (by omega))]
      simp
    · simp [hx]
  rw [totalMass, totalMass]
  rw [Finset.sum_congr rfl fun x _ => Finset.sum_congr rfl fun y _ => hsplit x y]
  rw [Finset.sum_congr rfl fun x _ => Finset.sum_add_distrib]
  rw [Finset.sum_add_distrib]
  rw [Finset.sum_congr rfl fun x _ => hcol x]
  rw [Finset.sum_ite_eq' (Finset.range w) a.toNat fun _ => 1,
    if_pos (Finset.mem_range.mpr (by omega))]

theorem totalMass_densityFold (c : Color) {w h : ℕ} :
    ∀ (ps : List Particle) (g : ℤ → ℤ → ℕ),
      (∀ p ∈ ps, 0 ≤ p.x ∧ p.x < w ∧ 0 ≤ p.y ∧ p.y < h) →
      totalMass (densityFold c ps g) w h =
        totalMass g w h + (ps.filter fun p => p.color = c).length := by
  intro ps
  induction ps with
  | nil => intro g _; simp [densityFold]
  | cons p ps ih =>
    intro g hin
    obtain ⟨hx0, hxw, hy0, hyh⟩ := hin p (List.mem_cons_self p ps)
    have hin' : ∀ q ∈ ps, 0 ≤ q.x ∧ q.x < w ∧ 0 ≤ q.y ∧ q.y < h :=
      fun q hq => hin q (List.mem_cons_of_mem p hq)
    obtain ⟨hpx0, hpxw⟩ := pyInt_nonneg_lt hx0 hxw
    obtain ⟨hpy0, hpyh⟩ := pyInt_nonneg_lt hy0 hyh
    rw [densityFold]
    by_cases hc : p.color = c
    · rw [if_pos hc, ih _ hin', totalMass_bump hpx0 hpxw hpy0 hpyh]
      simp [hc]
      omega
    · rw [if_neg hc, ih _ hin']
      simp [hc]

theorem densityFold_apply (c : Color) :
    ∀ (ps : List Particle) (g : ℤ → ℤ → ℕ) (i j : ℤ),
      densityFold c ps g i j =
        g i j + (ps.filter fun p => p.color = c ∧ pyInt p.x = i ∧ pyInt p.y = j).length := by
  intro ps
  induction ps with
  | nil => intro g i j; simp [densityFold]
  | cons p ps ih =>
    intro g i j
    rw [densityFold]
    by_cases hc : p.color = c
    · rw [if_pos hc, ih]
      by_cases hcell : pyInt p.x = i ∧ pyInt p.y = j
      · rw [bump, if_pos ⟨hcell.1.symm, hcell.2.symm⟩]
        simp [hc, hcell.1, hcell.2]
        omega
      · rw [bump, if_neg fun hcon => hcell ⟨hcon.1.symm, hcon.2.symm⟩]
        have : ¬(p.color = c ∧ pyInt p.x = i ∧ pyInt p.y = j) := fun hcon => hcell hcon.2
        simp only [List.filter_cons]
        rw [if_neg (by simpa using this)]
    · rw [if_neg hc, ih]
      have : ¬(p.color = c ∧ pyInt p.x = i ∧ pyInt p.y = j) := fun hcon => hc hcon.1
      simp only [List.filter_cons]
      rw [if_neg (by simpa using this)]

end Diffusion

open Diffusion

/-- C2: a particle whose coordinates lie in `[0, max_x) × [0, max_y)` stays
in range after `move`, and a coordinate changes only when the proposed
value `coord + step * velocity` is itself in range on that axis; an
out-of-range proposal leaves that axis unchanged. -/
theorem C2_move_bounds (p : Particle) (max_x max_y : ℕ) (v : ℚ) (dx dy : ℤ)
    (hdx : dx = -1 ∨ dx = 0 ∨ dx = 1) (hdy : dy = -1 ∨ dy = 0 ∨ dy = 1)
    (hx0 : 0 ≤ p.x) (hx1 : p.x < max_x) (hy0 : 0 ≤ p.y) (hy1 : p.y < max_y) :
    (0 ≤ (p.move max_x max_y v dx dy).x ∧ (p.move max_x max_y v dx dy).x < max_x ∧
      0 ≤ (p.move max_x max_y v dx dy).y ∧ (p.move max_x max_y v dx dy).y < max_y) ∧
    ((p.move max_x max_y v dx dy).x ≠ p.x →
      0 ≤ p.x + dx * v ∧ p.x + dx * v < max_x) ∧
    ((p.move max_x max_y v dx dy).y ≠ p.y →
      0 ≤ p.y + dy * v ∧ p.y + dy * v < max_y) ∧
    (¬(0 ≤ p.x + dx * v ∧ p.x + dx * v < max_x) → (p.move max_x max_y v dx dy).x = p.x) ∧
    (¬(0 ≤ p.y + dy * v ∧ p.y + dy * v < max_y) → (p.move max_x max_y v dx dy).y = p.y) := by
  simp only [Particle.move_x, Particle.move_y]
  split_ifs with hx hy hy
  · exact ⟨⟨hx.1, hx.2, hy.1, hy.2⟩, fun _ => hx, fun _ => hy,
      fun hc => absurd hx hc, fun hc => absurd hy hc⟩
  · exact ⟨⟨hx.1, hx.2, hy0, hy1⟩, fun _ => hx, fun hne => absurd rfl hne,
      fun hc => absurd hx hc, fun _ => rfl⟩
  · exact ⟨⟨hx0, hx1, hy.1, hy.2⟩, fun hne => absurd rfl hne, fun _ => hy,
      fun _ => rfl, fun hc => absurd hy hc⟩
  · exact ⟨⟨hx0, hx1, hy0, hy1⟩, fun hne => absurd rfl hne, fun hne => absurd rfl hne,
      fun _ => rfl, fun _ => rfl⟩

/-- Witness for C2 at a concrete particle, chamber and draw. -/
theorem C2_move_bounds_witness :
    ((1 : ℤ) = -1 ∨ (1 : ℤ) = 0 ∨ (1 : ℤ) = 1) ∧
    ((0 : ℤ) = -1 ∨ (0 : ℤ) = 0 ∨ (0 : ℤ) = 1) ∧
    (0 ≤ (Particle.mk 0 0 .orange).x ∧ (Particle.mk 0 0 .orange).x < (2 : ℕ) ∧
      0 ≤ (Particle.mk 0 0 .orange).y ∧ (Particle.mk 0 0 .orange).y < (2 : ℕ)) ∧
    ((0 ≤ ((Particle.mk 0 0 .orange).move 2 2 (mkRat 1 2) 1 0).x ∧
        ((Particle.mk 0 0 .orange).move 2 2 (mkRat 1 2) 1 0).x < (2 : ℕ) ∧
        0 ≤ ((Particle.mk 0 0 .orange).move 2 2 (mkRat 1 2) 1 0).y ∧
        ((Particle.mk 0 0 .orange).move 2 2 (mkRat 1 2) 1 0).y < (2 : ℕ)) ∧
      (((Particle.mk 0 0 .orange).move 2 2 (mkRat 1 2) 1 0).x ≠ (Particle.mk 0 0 .orange).x →
        0 ≤ (Particle.mk 0 0 .orange).x + (1 : ℤ) * (mkRat 1 2) ∧
          (Particle.mk 0 0 .orange).x + (1 : ℤ) * (mkRat 1 2) < (2 : ℕ)) ∧
      (((Particle.mk 0 0 .orange).move 2 2 (mkRat 1 2) 1 0).y ≠ (Particle.mk 0 0 .orange).y →
        0 ≤ (Particle.mk 0 0 .orange).y + (0 : ℤ) * (mkRat 1 2) ∧
          (Particle.mk 0 0 .orange).y + (0 : ℤ) * (mkRat 1 2) < (2 : ℕ)) ∧
      (¬(0 ≤ (Particle.mk 0 0 .orange).x + (1 : ℤ) * (mkRat 1 2) ∧
            (Particle.mk 0 0 .orange).x + (1 : ℤ) * (mkRat 1 2) < (2 : ℕ)) →
        ((Particle.mk 0 0 .orange).move 2 2 (mkRat 1 2) 1 0).x = (Particle.mk 0 0 .orange).x) ∧
      (¬(0 ≤ (Particle.mk 0 0 .orange).y + (0 : ℤ) * (mkRat 1 2) ∧
            (Particle.mk 0 0 .orange).y + (0 : ℤ) * (mkRat 1 2) < (2 : ℕ)) →
        ((Particle.mk 0 0 .orange).move 2 2 (mkRat 1 2) 1 0).y = (Particle.mk 0 0 .orange).y)) :=
  ⟨Or.inr (Or.inr rfl), Or.inr (Or.inl rfl),
    by norm_num,
    C2_move_bounds (Particle.mk 0 0 .orange) 2 2 (mkRat 1 2) 1 0
      (Or.inr (Or.inr rfl)) (Or.inr (Or.inl rfl))
      (by norm_num) (by norm_num) (by norm_num) (by norm_num)⟩

/-- C1: whenever `Diffusion(size, temperature)` finishes constructing its
chamber (positive size and temperature), the particle list has exactly
`⌊0.8·size²⌋` particles, no two particles share an integer cell, and a
particle is orange exactly when its initial x-coordinate is below
`size // 2`. -/
theorem C1_initial_population (size : ℕ) (temp : ℚ) (s : ℕ → ℕ × ℕ) (fuel : ℕ)
    (ch : Chamber) (hsize : 0 < size) (htemp : 0 < temp)
    (h : diffusion_new size temp s fuel = .ok ch) :
    ch.particles.length = 8 * size * size / 10 ∧
    NoOverlap ch.particles ∧
    ∀ p ∈ ch.particles, (p.color = Color.orange ↔ p.x < ((size / 2 : ℕ) : ℚ)) := by
  rw [diffusion_new, Chamber.new] at h
  cases hinit : init_particles size size s fuel (8 * size * size / 10) 0 [] with
  | error e => rw [hinit] at h; cases h
  | ok r =>
    obtain ⟨qs, k'⟩ := r
    rw [hinit] at h
    injection h with h
    subst h
    obtain ⟨hlen, hmem, hno⟩ := init_particles_ok hinit
    refine ⟨by simpa using hlen, hno List.Pairwise.nil, ?_⟩
    intro p hp
    rcases hmem p hp with h0 | hg
    · cases h0
    · exact hg.2

/-- Witness for C1: `Diffusion(2, 50)` under `seedStream` yields three
particles on distinct cells, coloured by the midline rule. -/
theorem C1_initial_population_witness :
    (0 < 2 ∧ (0 : ℚ) < 50 ∧ diffusion_new 2 50 seedStream 1 = .ok sampleChamber) ∧
    (sampleChamber.particles.length = 8 * 2 * 2 / 10 ∧
      NoOverlap sampleChamber.particles ∧
      ∀ p ∈ sampleChamber.particles,
        (p.color = Color.orange ↔ p.x < ((2 / 2 : ℕ) : ℚ))) := by
  have hrun : diffusion_new 2 50 seedStream 1 = .ok sampleChamber := rfl
  exact ⟨⟨by decide, by norm_num, hrun⟩,
    C1_initial_population 2 50 seedStream 1 sampleChamber (by decide) (by norm_num) hrun⟩

/-- C3: there is no capacity check and no `CapacityError` anywhere in the
code; when the requested particle count exceeds the grid capacity
`width * height`, the rejection-sampling loop can never finish: for every
fuel bound and every draw stream, construction is still looping
(`fuelExhausted`), so it neither raises a capacity error nor produces a
chamber. -/
theorem C3_overfull_seeding_loops (size count : ℕ) (temp : ℚ)
    (hsize : 0 < size) (hover : size * size < count)
    (s : ℕ → ℕ × ℕ) (fuel : ℕ) :
    Chamber.new size temp count s fuel = .error SeedError.fuelExhausted := by
  rw [Chamber.new]
  rcases init_particles_cases hsize hsize s fuel count 0 [] with ⟨⟨qs, k'⟩, hok⟩ | herr
  · exact absurd hok (init_particles_not_ok_of_overfull hover qs k')
  · rw [herr]
    rfl

/-- Witness for C3 at `size = 4`, `particle_count = 17 > 16`. -/
theorem C3_overfull_seeding_loops_witness :
    (0 < 4 ∧ 4 * 4 < 17) ∧
    Chamber.new 4 0 17 (fun _ => (0, 0)) 3 = .error SeedError.fuelExhausted :=
  ⟨⟨by decide, by decide⟩,
    C3_overfull_seeding_loops 4 17 0 (by decide) (by decide) (fun _ => (0, 0)) 3⟩

/-- C4: on any `updated(cycle)` with all particle positions inside
`[0, width) × [0, height)`, each species' concentration series sums over x
to that species' particle count: the binning loses and double-counts
nothing. -/
theorem C4_concentration_conservation (ps : List Particle) (w h : ℕ)
    (hin : ∀ p ∈ ps, 0 ≤ p.x ∧ p.x < w ∧ 0 ≤ p.y ∧ p.y < h) :
    (∑ x in Finset.range w, concentrationSeries Color.orange ps h x) =
      (ps.filter fun p => p.color = Color.orange).length ∧
    (∑ x in Finset.range w, concentrationSeries Color.blue ps h x) =
      (ps.filter fun p => p.color = Color.blue).length := by
  have hz : totalMass zeroGrid w h = 0 := by simp [totalMass, zeroGrid]
  have ho := totalMass_densityFold Color.orange (w := w) (h := h) ps zeroGrid hin
  have hb := totalMass_densityFold Color.blue (w := w) (h := h) ps zeroGrid hin
  rw [hz, Nat.zero_add] at ho hb
  exact ⟨ho, hb⟩

/-- Witness for C4 on a concrete two-particle configuration. -/
theorem C4_concentration_conservation_witness :
    (∀ p ∈ sampleParticles, 0 ≤ p.x ∧ p.x < (2 : ℕ) ∧ 0 ≤ p.y ∧ p.y < (2 : ℕ)) ∧
    ((∑ x in Finset.range 2, concentrationSeries Color.orange sampleParticles 2 x) =
      (sampleParticles.filter fun p => p.color = Color.orange).length ∧
      (∑ x in Finset.range 2, concentrationSeries Color.blue sampleParticles 2 x) =
      (sampleParticles.filter fun p => p.color = Color.blue).length) :=
  ⟨by decide, C4_concentration_conservation sampleParticles 2 2 (by decide)⟩

/-- C5: `max_entropy` starts at 0 and never decreases across `updated`
calls; `max_entropy_cycle` changes only on a call whose total entropy
strictly exceeds the stored maximum, and such a call installs exactly the
new total and that cycle. -/
theorem C5_max_entropy_monotone (st : SystemEntropyState) (ps : List Particle)
    (w h : ℕ) (cycle : ℤ) :
    systemEntropyInit.max_entropy = 0 ∧
    systemEntropyInit.max_entropy_cycle = 0 ∧
    st.max_entropy ≤ (systemEntropyUpdated st ps w h cycle).max_entropy ∧
    ((systemEntropyUpdated st ps w h cycle).max_entropy_cycle ≠ st.max_entropy_cycle →
      st.max_entropy < totalEntropy ps w h) ∧
    (st.max_entropy < totalEntropy ps w h →
      systemEntropyUpdated st ps w h cycle =
        { max_entropy := totalEntropy ps w h, max_entropy_cycle := cycle }) ∧
    (¬st.max_entropy < totalEntropy ps w h →
      systemEntropyUpdated st ps w h cycle = st) := by
  rw [systemEntropyUpdated]
  split_ifs with hlt
  · exact ⟨rfl, rfl, le_of_lt hlt, fun _ => hlt, fun _ => rfl, fun hc => absurd hlt hc⟩
  · exact ⟨rfl, rfl, le_refl _, fun hne => absurd rfl hne,
      fun hcon => absurd hcon hlt, fun _ => rfl⟩

/-- C6: the event trace of `Chamber.update(cycle)` is every particle's
`move` (in list order) followed by every hook's `updated(cycle)` in
registration order, where `add_hook` registers by appending; so all moves,
performed with `velocity = temperature/100` inside `Chamber.update`,
complete before any probe is notified. -/
theorem C6_update_order (c : Chamber) (d : ℕ → ℕ × ℕ) (cycle : ℤ) (hk : ℕ) :
    (c.update d cycle).2 =
      ((List.range c.particles.length).map Event.moved) ++ c.hooks.map Event.notified ∧
    (c.add_hook hk).hooks = c.hooks ++ [hk] := by
  constructor
  · rw [Chamber.update]
    refine congrArg₂ _ ?_ (notifyLoop_trace c.hooks)
    rw [moveLoop_trace]
    exact List.map_congr_left fun j _ => by rw [Nat.zero_add]
  · rfl

/-- C7: `Chamber.update` changes only particle positions: the particle
list keeps its length and positionwise colours, and the chamber's width,
height, temperature and hook list are untouched. -/
theorem C7_update_frame (c : Chamber) (d : ℕ → ℕ × ℕ) (cycle : ℤ) :
    ((c.update d cycle).1).particles.length = c.particles.length ∧
    ((c.update d cycle).1).particles.map Particle.color = c.particles.map Particle.color ∧
    ((c.update d cycle).1).width = c.width ∧
    ((c.update d cycle).1).height = c.height ∧
    ((c.update d cycle).1).temperature = c.temperature ∧
    ((c.update d cycle).1).hooks = c.hooks := by
  obtain ⟨h1, h2⟩ :=
    moveLoop_particles c.width c.height (c.temperature / 100) d c.particles 0
  exact ⟨h1, h2, rfl, rfl, rfl, rfl⟩

/-- C8 (code evaluation): construction with a particle count of zero and a
negative temperature raises nothing — the code performs no configuration
validation (no `ConfigurationError` exists) and hands back a fully formed
chamber with an empty particle list. -/
theorem C8_no_configuration_validation :
    Chamber.new 3 (-5) 0 (fun _ => (0, 0)) 1 =
      .ok { width := 3, height := 3, temperature := -5, particles := [], hooks := [] } := rfl

/-- C9: at a cell with no particles of either colour, the
`total == 0 → total = 1` guard makes the divisor 1 (never 0), both
per-cell probabilities 0, and the cell's entropy contribution exactly 0 —
no exception, no division by zero. -/
theorem C9_empty_cell_entropy (ps : List Particle) (i j : ℤ)
    (h : densityGrid Color.orange ps i j + densityGrid Color.blue ps i j = 0) :
    cellTotalAdj ps i j = 1 ∧ ((cellTotalAdj ps i j : ℝ) ≠ 0) ∧
    probOf Color.orange ps i j = 0 ∧ probOf Color.blue ps i j = 0 ∧
    cellEntropy ps i j = 0 := by
  have hadj : cellTotalAdj ps i j = 1 := by
    rw [cellTotalAdj, if_pos (show cellTotal ps i j = 0 from h)]
  have hco : densityGrid Color.orange ps i j = 0 := Nat.eq_zero_of_add_eq_zero_right h
  have hcb : densityGrid Color.blue ps i j = 0 := Nat.eq_zero_of_add_eq_zero_left h
  have hpo : probOf Color.orange ps i j = 0 := by
    rw [probOf, hco]; simp
  have hpb : probOf Color.blue ps i j = 0 := by
    rw [probOf, hcb]; simp
  refine ⟨hadj, by rw [hadj]; norm_num, hpo, hpb, ?_⟩
  rw [cellEntropy, hpo, hpb]
  ring

/-- Witness for C9: the cell `(9, 9)` of a two-particle configuration is
empty, and its entropy contribution vanishes. -/
theorem C9_empty_cell_entropy_witness :
    (densityGrid Color.orange sampleParticles 9 9 +
      densityGrid Color.blue sampleParticles 9 9 = 0) ∧
    (cellTotalAdj sampleParticles 9 9 = 1 ∧
      ((cellTotalAdj sampleParticles 9 9 : ℝ) ≠ 0) ∧
      probOf Color.orange sampleParticles 9 9 = 0 ∧
      probOf Color.blue sampleParticles 9 9 = 0 ∧
      cellEntropy sampleParticles 9 9 = 0) :=
  ⟨by decide, C9_empty_cell_entropy sampleParticles 9 9 (by decide)⟩

/-- C10 counterexample: a particle at `x = 2.7` is binned by the code at
column `int(2.7) = 2`, not at the nearest integer `round(2.7) = 3`; the
grid cell the claim designates stays at zero. -/
theorem C10_rounding_counterexample :
    pyInt (mkRat 27 10) = 2 ∧ roundNearest (mkRat 27 10) = 3 ∧
    densityGrid Color.orange [{ x := mkRat 27 10, y := 0, color := Color.orange }]
      (roundNearest (mkRat 27 10)) (roundNearest 0) = 0 ∧
    densityGrid Color.orange [{ x := mkRat 27 10, y := 0, color := Color.orange }]
      (pyInt (mkRat 27 10)) (pyInt 0) = 1 := by
  have h3 : roundNearest (mkRat 27 10) = 3 := by
    rw [roundNearest, round_eq]
    rw [Rat.mkRat_eq_div]
    norm_num
  have h0 : roundNearest 0 = 0 := by simp [roundNearest]
  refine ⟨by decide, h3, ?_, by decide⟩
  rw [h3, h0]
  decide

/-- C10 (amended): both probes bin each particle at its position truncated
toward zero (Python `int()`) on each axis: cell `(i, j)` of the species-`c`
grid counts the particles of colour `c` with `(int(x), int(y)) = (i, j)`. -/
theorem C10_truncation_binning (c : Color) (ps : List Particle) (i j : ℤ) :
    densityGrid c ps i j =
      (ps.filter fun p => p.color = c ∧ pyInt p.x = i ∧ pyInt p.y = j).length := by
  rw [densityGrid, densityFold_apply]
  simp [zeroGrid]
